import Mathlib

/-!
Verification development for the SpQR single-layer quantization engine
(`lm_eval/quantization/spqr/spqr.py`).

The source is embedded shallowly over exact rational arithmetic:
matrices are total functions `ℕ → ℕ → ℚ` together with explicit
dimensions, in-place tensor updates become functional updates, and the
`raise` / `assert` statements of the Python code become an `Except`
result.  The column permutation is modelled as the identity (the
default `permutation_order="identity"`; the external permutation
module is not part of the sources).  The external torch Cholesky
factorization is modelled by passing the factorization results
(`H_inv` and its upper Cholesky factor `R`) as arguments, specified by
the decidable contract `CholContract`.
-/

namespace SpQR

/-- Dense real matrix, total function representation; dimensions are
carried separately by each operation. -/
def Mat : Type := ℕ → ℕ → ℚ

/-- The zero matrix. -/
def zeroMat : Mat := fun _ _ => 0

/-- Sum of `f 0, …, f (n-1)`. -/
def sumTo (n : ℕ) (f : ℕ → ℚ) : ℚ := ((List.range n).map f).sum

/-- Error conditions of the embedded engine (spec §7 taxonomy):
`accumulatorConsumed` models the `assert self.H is not None` in
`add_batch` (and using a consumed accumulator in `quantize`),
`unsupportedConfiguration` models the `NotImplementedError` raised for
row + unstructured outliers, `assertionFailed` models the
`assert perchannel` on the leave-one-out refitting path. -/
inductive QErr where
  | accumulatorConsumed
  | unsupportedConfiguration
  | assertionFailed
deriving DecidableEq

/-! ## Modelled scalar quantizer

The `Quantizer` class lives in `quant_groups.py`, which is not among
the sources; per spec §6 it is an external contract
(`findParams` / `quantize` / dequantize). -/

/-- Modelled from the spec: rounding used by the external scalar
quantizer (`torch.round` composed with the cast back to reals). -/
def ratRound (x : ℚ) : ℚ := ((round x : ℤ) : ℚ)

/-- Modelled from the spec: clamping to an interval. -/
def clampQ (x lo hi : ℚ) : ℚ := max lo (min x hi)

/-- Modelled from the spec: the external scalar quantizer's
quantize-then-dequantize round trip
`scale * (clamp(round(x/scale) + zero, 0, maxq) - zero)` (§6:
"quantize(data, scale, zero, maxLevel)", compared with originals after
dequantization). -/
def quantDequant (x scale zero maxq : ℚ) : ℚ :=
  scale * (clampQ (ratRound (x / scale) + zero) 0 maxq - zero)

/-- Minimum of a list of rationals, `0` for the empty list. -/
def listMinQ : List ℚ → ℚ
  | [] => 0
  | x :: xs => xs.foldl min x

/-- Maximum of a list of rationals, `0` for the empty list. -/
def listMaxQ : List ℚ → ℚ
  | [] => 0
  | x :: xs => xs.foldl max x

/-- Per-channel quantizer statistics: a scale and a zero point. -/
structure QP where
  scale : ℚ
  zero : ℚ

/-- Modelled from the spec: the external scalar quantizer's
`findParams` fit for one channel (min/max statistics, symmetric or
asymmetric; `quant_groups.py` is absent from the sources, the model
follows the §6 contract with standard min-max fitting). -/
def findParamsRow (bits : ℕ) (sym : Bool) (vals : List ℚ) : QP :=
  let maxq : ℚ := (2 : ℚ) ^ bits - 1
  let xmin0 : ℚ := min (listMinQ vals) 0
  let xmax0 : ℚ := max (listMaxQ vals) 0
  let xmax1 : ℚ := if sym then max |xmin0| xmax0 else xmax0
  let xmin1 : ℚ := if sym ∧ xmin0 < 0 then -xmax1 else xmin0
  let degenerate : Prop := xmin1 = 0 ∧ xmax1 = 0
  let xmin2 : ℚ := if degenerate then -1 else xmin1
  let xmax2 : ℚ := if degenerate then 1 else xmax1
  let scale : ℚ := (xmax2 - xmin2) / maxq
  let zero : ℚ := if sym then (maxq + 1) / 2 else ratRound (-xmin2 / scale)
  ⟨scale, zero⟩

/-! ## CurvatureAccumulator (`SPQRUtil.__init__` / `SPQRUtil.add_batch`) -/

/-- A calibration batch: `add_batch` accepts a 2-D batch of feature
vectors or a 3-D batch (a list of 2-D slices). -/
inductive Inp where
  | twoD (rows : List (List ℚ))
  | threeD (mats : List (List (List ℚ)))

/-- The batch-count increment `tmp = inp.shape[0]` of `add_batch`:
a 2-D input is first unsqueezed to leading size 1, a 3-D input
contributes its leading dimension. -/
def Inp.tmp : Inp → ℕ
  | .twoD _ => 1
  | .threeD mats => mats.length

/-- The feature vectors contained in a batch, after the
`reshape((-1, inp.shape[-1]))` flattening. -/
def Inp.rows : Inp → List (List ℚ)
  | .twoD rows => rows
  | .threeD mats => mats.flatten

/-- Gram matrix `Xᵀ X` of a list of feature vectors (entries read with
`getD`, out-of-range entries are 0). -/
def gramRows (rows : List (List ℚ)) : Mat :=
  fun i j => (rows.map (fun r => r.getD i 0 * r.getD j 0)).sum

/-- One `add_batch` update on the raw pair (H, nsamples):
`H ← H * n/(n+tmp); n ← n+tmp; H ← H + (2/n)·XᵀX`.  The code scales
the input by `sqrt(2/n)` before the Gram product; in exact arithmetic
this equals scaling the Gram matrix by `2/n`, which is how it is
written here (no square roots exist in `ℚ`). -/
def accumStep (s : Mat × ℕ) (inp : Inp) : Mat × ℕ :=
  let t := inp.tmp
  let n1 := s.2 + t
  (fun i j => s.1 i j * ((s.2 : ℚ) / (n1 : ℚ)) +
      (2 / (n1 : ℚ)) * gramRows inp.rows i j,
   n1)

/-- The accumulator state of `SPQRUtil`: the Hessian is `none` once
consumed by a `quantize` call with `keep_H=False`. -/
structure AccState where
  H : Option Mat
  nsamples : ℕ

/-- A freshly initialized `SPQRUtil` accumulator (`H = 0`, `nsamples = 0`). -/
def freshAcc : AccState := ⟨some zeroMat, 0⟩

/-- `SPQRUtil.add_batch`: fails when the Hessian has been consumed
(`assert self.H is not None`), otherwise performs `accumStep`. -/
def SPQRUtil.add_batch (s : AccState) (inp : Inp) : Except QErr AccState :=
  match s.H with
  | none => .error .accumulatorConsumed
  | some M =>
      let p := accumStep (M, s.nsamples) inp
      .ok ⟨some p.1, p.2⟩

/-- Accumulate a list of batches starting from the fresh accumulator
(raw H/nsamples view). -/
def runAccum (l : List Inp) : Mat × ℕ := l.foldl accumStep (zeroMat, 0)

/-- Total batch count accumulated over a list of batches. -/
def totalTmp (l : List Inp) : ℕ := (l.map Inp.tmp).sum

/-- Sum of the Gram matrices of all batches in a list. -/
def gramAll (l : List Inp) : Mat :=
  fun i j => (l.map (fun b => gramRows b.rows i j)).sum

/-! ## Leave-one-out index construction (`get_leave_one_out_error`) -/

/-- The entry `loo_indices[i, j]` built by `get_leave_one_out_error`:
`arange(g)[1:][j] - (i ≥ arange(g)[1:][j])`, i.e.
`(j+1) - (if i ≥ j+1 then 1 else 0)`. -/
def looIndex (i j : ℕ) : ℕ := (j + 1) - (if j + 1 ≤ i then 1 else 0)

/-- Row `i` of the leave-one-out index matrix for group width `g`. -/
def looRow (g i : ℕ) : List ℕ := (List.range (g - 1)).map (looIndex i)

/-- The reduced group `groupwise_loo_data[r, i, j] = group_weight[r, loo_indices[i, j]]`. -/
def groupwiseLooData (W : ℕ → ℕ → ℚ) : ℕ → ℕ → ℕ → ℚ :=
  fun r i j => W r (looIndex i j)

/-- `get_leave_one_out_error`: per weight of a `[outDim, g]` group,
the reduction in hessian-weighted squared reconstruction error from
excluding that weight from quantizer fitting.  `diagR` is the diagonal
slice of the propagation matrix for the group. -/
def get_leave_one_out_error (bits : ℕ) (sym : Bool) (outDim g : ℕ)
    (W : ℕ → ℕ → ℚ) (diagR : ℕ → ℚ) : ℕ → ℕ → ℚ :=
  let maxq : ℚ := (2 : ℚ) ^ bits - 1
  let loo := groupwiseLooData W
  let fastQP : ℕ → ℕ → QP := fun r i =>
    findParamsRow bits sym ((List.range (g - 1)).map (loo r i))
  let recon : ℕ → ℕ → ℕ → ℚ := fun r i j =>
    quantDequant (loo r i j) (fastQP r i).scale (fastQP r i).zero maxq
  let looErrSq : ℕ → ℕ → ℚ := fun r i =>
    sumTo (g - 1) (fun j => ((recon r i j - loo r i j) / diagR (looIndex i j)) ^ 2)
  let baseQP : ℕ → QP := fun r =>
    findParamsRow bits sym ((List.range g).map (W r))
  let baseRecon : ℕ → ℕ → ℚ := fun r j =>
    quantDequant (W r j) (baseQP r).scale (baseQP r).zero maxq
  let baseErrSq : ℕ → ℚ := fun r =>
    sumTo g (fun j => ((baseRecon r j - W r j) / diagR j) ^ 2)
  fun r i => baseErrSq r - looErrSq r i

/-! ## Preprocessing of H (`quantize` lines: dead features and damping) -/

/-- Result of the H preprocessing: the matrix handed to factorization
and the dead-feature mask. -/
structure PrepResult where
  H : Mat
  dead : ℕ → Bool

/-- The preprocessing of H performed by `SPQRUtil.quantize` before
factorization, in source order: (1) `dead = (diag H == 0)` from the
original diagonal, (2) if `percdamp > 0`, add
`percdamp * mean(|diag H|)` to every diagonal entry (the mean is taken
over the diagonal as it is at that point, dead entries still 0),
(3) set the diagonal entries of dead features to 1. -/
def preprocessH (n : ℕ) (H : Mat) (percdamp : ℚ) : PrepResult :=
  let dead : ℕ → Bool := fun j => decide (H j j = 0)
  let meanAbs : ℚ := sumTo n (fun i => |H i i|) / (n : ℚ)
  let H1 : Mat :=
    if 0 < percdamp then
      fun i j => if i = j ∧ i < n then H i j + percdamp * meanAbs else H i j
    else H
  let H2 : Mat := fun i j => if i = j ∧ dead i then 1 else H1 i j
  ⟨H2, dead⟩

/-! ## The blockwise quantization loop -/

/-- Configuration record of `SPQRUtil.quantize` (the permutation order
is modelled as the identity; `outlier_relative_threshold = none`
models the default `float("inf")`, i.e. unstructured outliers
disabled). -/
structure QConfig where
  bits : ℕ
  blocksize : ℕ
  percdamp : ℚ
  groupsize : Option ℕ
  keep_last_columns : ℕ
  outlier_relative_threshold : Option ℚ
  keepH : Bool
  outlier_cols_enable : Bool
  outlier_rows_enable : Bool
  outlier_percentile_base : ℚ
  outlier_percentile_multiple : ℚ
  simplified_outliers : Bool
  perchannel : Bool
  sym : Bool

/-- Context threaded through the column loop. -/
structure LoopCtx where
  outDim : ℕ
  inDim : ℕ
  groupsize : ℕ
  bits : ℕ
  sym : Bool
  perchannel : Bool
  simplified : Bool
  threshold : Option ℚ
  colsMask : ℕ → Bool
  R : Mat
  blocksize : ℕ
  keepLast : ℕ

/-- Mutable state of the column loop: the weight buffer, the
quantization-error matrix, the unstructured outlier mask, the current
quantizer parameters, the group counter, plus two ghost fields:
`rounded` records every column index that was passed to the scalar
quantizer's rounding, and `corr` accumulates exactly the
error-propagation addends (rank-1 and block rank-k updates) that were
applied to each weight entry. -/
structure LoopState where
  W : Mat
  E : Mat
  M : ℕ → ℕ → Bool
  qscale : ℕ → ℚ
  qzero : ℕ → ℚ
  inGroupIndex : ℕ
  rounded : List ℕ
  corr : Mat

/-- Modelled from the spec: `findParams` over a `[outDim, gLen]`
matrix of group values, per output channel when `perchannel` is set,
as one global channel otherwise (§6 quantizer contract;
`quant_groups.py` absent from the sources). -/
def findParamsMat (bits : ℕ) (sym perchannel : Bool) (outDim gLen : ℕ)
    (V : ℕ → ℕ → ℚ) : (ℕ → ℚ) × (ℕ → ℚ) :=
  if perchannel then
    (fun r => (findParamsRow bits sym ((List.range gLen).map (V r))).scale,
     fun r => (findParamsRow bits sym ((List.range gLen).map (V r))).zero)
  else
    let all := ((List.range outDim).map (fun r => (List.range gLen).map (V r))).flatten
    let p := findParamsRow bits sym all
    (fun _ => p.scale, fun _ => p.zero)

/-- The group-boundary quantizer refit (loop body for
`column_index % groupsize == 0`): fit on the outlier-masked group; on
the non-simplified path with a finite unstructured threshold, first
run the leave-one-out estimator, replace likely outliers by the
non-outlier mean, and fit on the result. -/
def refitQuantizer (ctx : LoopCtx) (st : LoopState) (ci : ℕ) : LoopState :=
  let gLen := min ctx.groupsize (ctx.inDim - ci)
  let gW : ℕ → ℕ → ℚ := fun r j => st.W r (ci + j)
  let gmaskf : ℕ → ℚ := fun j => 1 - (if ctx.colsMask (ci + j) then 1 else 0)
  let masked : ℕ → ℕ → ℚ := fun r j => gW r j * gmaskf j
  let fitted : (ℕ → ℚ) × (ℕ → ℚ) :=
    if ctx.simplified ∨ ctx.threshold = none then
      findParamsMat ctx.bits ctx.sym ctx.perchannel ctx.outDim gLen masked
    else
      let T := ctx.threshold.getD 0
      let looErr := get_leave_one_out_error ctx.bits ctx.sym ctx.outDim gLen
        masked (fun j => ctx.R (ci + j) (ci + j))
      let likely : ℕ → ℕ → ℚ := fun r j => if T < looErr r j then 1 else 0
      let nonOut : ℕ → ℕ → ℚ := fun r j => (1 - likely r j) * gmaskf j
      let meanNO : ℕ → ℚ := fun r =>
        sumTo gLen (fun j => gW r j * nonOut r j) /
          max 1 (sumTo gLen (fun j => nonOut r j))
      let gwwo : ℕ → ℕ → ℚ := fun r j =>
        gW r j * nonOut r j + meanNO r * (1 - nonOut r j)
      findParamsMat ctx.bits ctx.sym ctx.perchannel ctx.outDim gLen gwwo
  { st with qscale := fitted.1, qzero := fitted.2,
            inGroupIndex := st.inGroupIndex + 1 }

/-- Write-back part of one column step: store the error column and the
new weight column, then propagate `-error ⊗ R[ci, ci+1:blockEnd]` to
the remaining columns of the block (mirrored into the ghost `corr`). -/
def finishColumn (ctx : LoopCtx) (st : LoopState) (ci blockEnd : ℕ)
    (wq e : ℕ → ℚ) (M1 : ℕ → ℕ → Bool) (rd : List ℕ) : LoopState :=
  let E1 : Mat := fun r c => if c = ci then e r else st.E r c
  let W1 : Mat := fun r c => if c = ci then wq r else st.W r c
  let W2 : Mat := fun r c =>
    if ci < c ∧ c < blockEnd then W1 r c - e r * ctx.R ci c else W1 r c
  let corr2 : Mat := fun r c =>
    if ci < c ∧ c < blockEnd then st.corr r c - e r * ctx.R ci c else st.corr r c
  { st with W := W2, E := E1, M := M1, rounded := rd, corr := corr2 }

/-- One iteration of the inner column loop of `SPQRUtil.quantize`.
`useBranch` is the guard of the unstructured-outlier re-quantization
(`unstructured_outlier_threshold != inf and not outlier_columns_mask`);
the final column value, error column and mask column are selected by
it, exactly as in the two-armed source conditional. -/
def processColumn (ctx : LoopCtx) (blockEnd : ℕ) (st : LoopState) (ci : ℕ) :
    LoopState :=
  let st1 := if ci % ctx.groupsize = 0 then refitQuantizer ctx st ci else st
  let maxq : ℚ := (2 : ℚ) ^ ctx.bits - 1
  let wq1 : ℕ → ℚ := fun r =>
    if ctx.colsMask ci then st1.W r ci
    else quantDequant (st1.W r ci) (st1.qscale r) (st1.qzero r) maxq
  let rd : List ℕ := if ctx.colsMask ci then st1.rounded else ci :: st1.rounded
  let e1 : ℕ → ℚ := fun r => (st1.W r ci - wq1 r) / ctx.R ci ci
  let useBranch : Prop := ctx.threshold.isSome = true ∧ ctx.colsMask ci = false
  let T : ℚ := ctx.threshold.getD 0
  let m : ℕ → Bool := fun r => decide (T < e1 r ^ 2)
  let MF : ℕ → ℕ → Bool := fun r c =>
    if useBranch ∧ c = ci then m r else st1.M r c
  let wqF : ℕ → ℚ := fun r =>
    if useBranch then
      (let iso : ℚ := if m r then 1 else 0
       quantDequant (st1.W r ci * (1 - iso)) (st1.qscale r) (st1.qzero r) maxq
           * (1 - iso)
         + st1.W r ci * iso)
    else wq1 r
  let eF : ℕ → ℚ := fun r => (st1.W r ci - wqF r) / ctx.R ci ci
  finishColumn ctx st1 ci blockEnd wqF eF MF rd

/-- One iteration of the outer block loop: process the block's columns,
then propagate the block's accumulated errors to all columns beyond
the block (`addmm_`), mirrored into the ghost `corr`. -/
def processBlock (ctx : LoopCtx) (st : LoopState) (blockStart : ℕ) : LoopState :=
  let be := min (blockStart + ctx.blocksize) ctx.inDim
  let cols := List.range' blockStart (be - blockStart)
  let st1 := cols.foldl (fun s ci => processColumn ctx be s ci) st
  let W1 : Mat := fun r c =>
    if be ≤ c then st1.W r c - (cols.map (fun i => st1.E r i * ctx.R i c)).sum
    else st1.W r c
  let corr1 : Mat := fun r c =>
    if be ≤ c then st1.corr r c - (cols.map (fun i => st1.E r i * ctx.R i c)).sum
    else st1.corr r c
  { st1 with W := W1, corr := corr1 }

/-- Python `range(0, hi, step)` (empty when `step = 0`; the real code
would raise there). -/
def pyRangeStep (hi step : ℕ) : List ℕ :=
  if step = 0 then [] else (List.range ((hi + step - 1) / step)).map (· * step)

/-- The block starts `range(0, in_dim - keep_last_columns, blocksize)`. -/
def blockStarts (inDim keepLast bs : ℕ) : List ℕ := pyRangeStep (inDim - keepLast) bs

/-- The initial loop state for a starting weight matrix. -/
def initState (W0 : Mat) : LoopState :=
  ⟨W0, zeroMat, fun _ _ => false, fun _ => 0, fun _ => 0, 0, [], zeroMat⟩

/-- The full block/column loop of `SPQRUtil.quantize`. -/
def runBlocks (ctx : LoopCtx) (W0 : Mat) : LoopState :=
  (blockStarts ctx.inDim ctx.keepLast ctx.blocksize).foldl
    (processBlock ctx) (initState W0)

/-! ## Outlier statistics -/

/-- Unbiased per-column variance `weight.var(dim=0)` over the output
dimension (`ℚ`-total: for `outDim ≤ 1` the division yields 0 where
torch would produce NaN; no theorem uses that case). -/
def colVar (outDim : ℕ) (W : Mat) (c : ℕ) : ℚ :=
  let μ : ℚ := sumTo outDim (fun r => W r c) / (outDim : ℚ)
  sumTo outDim (fun r => (W r c - μ) ^ 2) / ((outDim : ℚ) - 1)

/-- Insert into a sorted list of rationals. -/
def insSorted (x : ℚ) : List ℚ → List ℚ
  | [] => [x]
  | y :: ys => if x ≤ y then x :: y :: ys else y :: insSorted x ys

/-- Insertion sort, ascending. -/
def sortQ : List ℚ → List ℚ
  | [] => []
  | x :: xs => insSorted x (sortQ xs)

/-- `torch.quantile` with the default linear interpolation: for the
sorted values `s` of length `n`, the value at fractional position
`q * (n-1)`. -/
def quantileModel (l : List ℚ) (q : ℚ) : ℚ :=
  let s := sortQ l
  let n := s.length
  let pos : ℚ := q * ((n : ℚ) - 1)
  let i : ℕ := (Int.floor pos).toNat
  let lo := s.getD i 0
  let hi := s.getD (min (i + 1) (n - 1)) 0
  lo + (pos - (i : ℚ)) * (hi - lo)

/-! ## `SPQRUtil.quantize` -/

/-- The result record of `SPQRUtil.quantize` (`perm` omitted: the
permutation is modelled as the identity).  `rounded_columns` and
`applied_corrections` are the ghost observations of the loop. -/
structure QuantizationResult where
  weight : Mat
  quantization_errors : Mat
  outlier_column_indices : List ℕ
  outlier_row_indices : List ℕ
  unstructured_outlier_threshold : Option ℚ
  unstructured_outlier_mask : ℕ → ℕ → Bool
  rounded_columns : List ℕ
  applied_corrections : Mat

/-- Contract of the torch Cholesky-based factorization performed at
the start of `quantize`: `Hinv` is the inverse of the (preprocessed)
`H`, and `R` is the upper-triangular Cholesky factor of `Hinv` with
positive diagonal (`H_inv_cho`).  All quantifiers are bounded by the
dimension so the contract is decidable on concrete inputs. -/
def CholContract (n : ℕ) (H Hinv R : Mat) : Prop :=
  (∀ i, i < n → ∀ j, j < n →
    sumTo n (fun k => Hinv i k * H k j) = if i = j then 1 else 0) ∧
  (∀ i, i < n → ∀ j, j < n →
    sumTo n (fun k => R k i * R k j) = Hinv i j) ∧
  (∀ i, i < n → ∀ j, j < i → R i j = 0) ∧
  (∀ i, i < n → 0 < R i i)

/-- `SPQRUtil.quantize`, embedded.  The external factorization results
(`Hinv = H⁻¹` after preprocessing, and its upper Cholesky factor `R`)
are passed in; theorems about valid runs constrain them with
`CholContract`.  Control flow follows the source: the consumed-H check
and `keep_H` consumption happen at entry; the `assert perchannel` of
the leave-one-out path is configuration-determined (it fires at the
very first group refit) and is therefore checked right after the
weight set-up, which is observationally equivalent; the
`NotImplementedError` for simultaneous row and unstructured outliers
is raised only after the whole loop has run, exactly as in the
source. -/
def SPQRUtil.quantizeBody (cfg : QConfig) (outDim inDim : ℕ)
    (Wlayer : Mat) (Hinv R : Mat) (H0 : Mat) :
    Except QErr QuantizationResult :=
    let pre := preprocessH inDim H0 cfg.percdamp
    let W0 : Mat := fun r c => if pre.dead c then 0 else Wlayer r c
    let groupsize := cfg.groupsize.getD inDim
    if cfg.perchannel = false ∧ cfg.simplified_outliers = false ∧
        cfg.outlier_relative_threshold.isSome ∧
        (0 < inDim - cfg.keep_last_columns ∧ 0 < cfg.blocksize) then
      .error .assertionFailed
    else
      let varCol : ℕ → ℚ := colVar outDim W0
      let colIdx : List ℕ :=
        if cfg.outlier_cols_enable then
          let crit : ℕ → ℚ := fun c => varCol c / Hinv c c
          let th : ℚ :=
            quantileModel ((List.range inDim).map crit)
              cfg.outlier_percentile_base * cfg.outlier_percentile_multiple
          (List.range inDim).filter (fun c => decide (th < crit c))
        else []
      let outlierScale : ℚ :=
        sumTo inDim (fun c => varCol c / R c c ^ 2) / (inDim : ℚ)
      let threshold : Option ℚ :=
        cfg.outlier_relative_threshold.map (fun t => t * outlierScale)
      let ctx : LoopCtx :=
        ⟨outDim, inDim, groupsize, cfg.bits, cfg.sym, cfg.perchannel,
         cfg.simplified_outliers, threshold,
         fun c => decide (c ∈ colIdx), R, cfg.blocksize, cfg.keep_last_columns⟩
      let st := runBlocks ctx W0
      if cfg.outlier_rows_enable ∧ threshold.isSome then
        .error .unsupportedConfiguration
      else
        let rcrit : ℕ → ℚ := fun r =>
          sumTo inDim (fun c => st.E r c ^ 2) / (inDim : ℚ)
        let rth : ℚ :=
          quantileModel ((List.range outDim).map rcrit)
            cfg.outlier_percentile_base * cfg.outlier_percentile_multiple
        let rows : List ℕ :=
          if cfg.outlier_rows_enable then
            (List.range outDim).filter (fun r => decide (rth < rcrit r))
          else []
        let M2 : ℕ → ℕ → Bool := fun r c => if r ∈ rows then false else st.M r c
        let W2 : Mat := fun r c => if r ∈ rows then Wlayer r c else st.W r c
        .ok ⟨W2, st.E, colIdx, rows, threshold, M2, st.rounded, st.corr⟩

/-- `SPQRUtil.quantize`: the consumed-H check and the `keep_H`
consumption happen at entry (mirroring `H = self.H; self.H = None`),
then the body runs on the captured Hessian. -/
def SPQRUtil.quantize (acc : AccState) (cfg : QConfig) (outDim inDim : ℕ)
    (Wlayer : Mat) (Hinv R : Mat) :
    AccState × Except QErr QuantizationResult :=
  match acc.H with
  | none => (acc, .error .accumulatorConsumed)
  | some H0 =>
      (if cfg.keepH then acc else ⟨none, acc.nsamples⟩,
       SPQRUtil.quantizeBody cfg outDim inDim Wlayer Hinv R H0)

instance (n : ℕ) (H Hinv R : Mat) : Decidable (CholContract n H Hinv R) := by
  unfold CholContract
  infer_instance

/-! ## Concrete instances used by the claim-level evaluations -/

/-- The identity matrix (of any dimension; entries outside the used
square region are irrelevant but well defined). -/
def idMat : Mat := fun i j => if i = j then 1 else 0

/-- A placeholder result used by `getRes` on the error branch. -/
def dummyRes : QuantizationResult :=
  ⟨zeroMat, zeroMat, [], [], none, fun _ _ => false, [], zeroMat⟩

/-- Extract the result of a successful quantization call. -/
def getRes (x : AccState × Except QErr QuantizationResult) : QuantizationResult :=
  match x.2 with
  | .ok r => r
  | .error _ => dummyRes

/-- The error of a failed quantization call, `none` on success. -/
def errOf (x : AccState × Except QErr QuantizationResult) : Option QErr :=
  match x.2 with
  | .error e => some e
  | .ok _ => none

/-- Whether an `add_batch` call succeeded. -/
def okB : Except QErr AccState → Bool
  | .ok _ => true
  | .error _ => false

/-- The sample count after an `add_batch` call, `none` on failure. -/
def accN : Except QErr AccState → Option ℕ
  | .ok s => some s.nsamples
  | .error _ => none

/-- 2×4 weight matrix (rows `[1,5,2,7]` and `[2,10,4,14]`) used for the
`keep_last_columns` evaluation. -/
def wC1 : Mat := fun r c =>
  if r = 0 then [(1 : ℚ), 5, 2, 7].getD c 0 else [(2 : ℚ), 10, 4, 14].getD c 0

/-- Configuration: bits 2, blocksize 3, no damping, one group,
`keep_last_columns = 2`, unstructured outliers disabled, `keep_H`,
no structured outliers, defaults for percentiles, perchannel
asymmetric quantizer. -/
def cfgC1 : QConfig :=
  ⟨2, 3, 0, none, 2, none, true, false, false, 99/100, 2, false, true, false⟩

/-- Run of `quantize` on `wC1` with `H = I₄` (hence `H⁻¹ = I₄` and
propagation matrix `R = I₄`). -/
def runC1 : AccState × Except QErr QuantizationResult :=
  SPQRUtil.quantize ⟨some idMat, 8⟩ cfgC1 2 4 wC1 idMat idMat

/-- 2×2 weight matrix (rows `[5,1]` and `[10,2]`). -/
def wC2 : Mat := fun r c =>
  if r = 0 then [(5 : ℚ), 1].getD c 0 else [(10 : ℚ), 2].getD c 0

/-- Configuration with `blocksize = 1` and `keep_last_columns = 1`. -/
def cfgC2a : QConfig :=
  ⟨2, 1, 0, none, 1, none, true, false, false, 99/100, 2, false, true, false⟩

/-- Same configuration with `blocksize = 2 = in_dim`. -/
def cfgC2b : QConfig :=
  ⟨2, 2, 0, none, 1, none, true, false, false, 99/100, 2, false, true, false⟩

/-- `quantize` on `wC2` with blocksize 1. -/
def runC2a : AccState × Except QErr QuantizationResult :=
  SPQRUtil.quantize ⟨some idMat, 3⟩ cfgC2a 2 2 wC2 idMat idMat

/-- `quantize` on `wC2` with blocksize 2 (= `in_dim`). -/
def runC2b : AccState × Except QErr QuantizationResult :=
  SPQRUtil.quantize ⟨some idMat, 3⟩ cfgC2b 2 2 wC2 idMat idMat

/-- Configuration with row outliers enabled together with a finite
unstructured outlier threshold, `keep_H = false`, simplified outlier
fitting. -/
def cfgC3 : QConfig :=
  ⟨2, 2, 0, none, 0, some 100, false, false, true, 99/100, 2, true, true, false⟩

/-- Run triggering the row/unstructured mutual-exclusion error. -/
def runC3 : AccState × Except QErr QuantizationResult :=
  SPQRUtil.quantize ⟨some idMat, 3⟩ cfgC3 2 2 wC2 idMat idMat

/-- Plain configuration with `keep_H = true` (the default). -/
def cfgC4 : QConfig :=
  ⟨2, 2, 0, none, 0, none, true, false, false, 99/100, 2, false, true, false⟩

/-- A full quantization run that keeps the Hessian. -/
def runC4 : AccState × Except QErr QuantizationResult :=
  SPQRUtil.quantize ⟨some idMat, 3⟩ cfgC4 2 2 wC2 idMat idMat

/-- Calibration set `{[1], [1]}` split into two 2-D batches. -/
def splitA : List Inp := [Inp.twoD [[1]], Inp.twoD [[1]]]

/-- The same calibration set as one single 2-D batch. -/
def splitB : List Inp := [Inp.twoD [[1], [1]]]

/-- Upper-triangular propagation matrix `R₃` with `R₃[0,2] = 1`. -/
def rC7 : Mat := fun i j =>
  if i = 0 ∧ (j = 0 ∨ j = 2) then 1 else if i = j then 1 else 0

/-- `Hinv₃ = R₃ᵀ R₃`. -/
def hinvC7 : Mat := fun i j =>
  if i = 0 ∧ j = 0 then 1 else
  if i = 1 ∧ j = 1 then 1 else
  if i = 2 ∧ j = 2 then 2 else
  if (i = 0 ∧ j = 2) ∨ (i = 2 ∧ j = 0) then 1 else 0

/-- `H₃ = (R₃ᵀ R₃)⁻¹`. -/
def hC7 : Mat := fun i j =>
  if i = 0 ∧ j = 0 then 2 else
  if i = 1 ∧ j = 1 then 1 else
  if i = 2 ∧ j = 2 then 1 else
  if (i = 0 ∧ j = 2) ∨ (i = 2 ∧ j = 0) then -1 else 0

/-- 2×3 weight matrix (rows `[1,5,40]` and `[2,10,-40]`), column 2 a
structured outlier under the configuration below. -/
def wC7 : Mat := fun r c =>
  if r = 0 then [(1 : ℚ), 5, 40].getD c 0 else [(2 : ℚ), 10, -40].getD c 0

/-- Configuration with structured-column outlier detection enabled
(percentile base 1/2, multiple 2). -/
def cfgC7 : QConfig :=
  ⟨2, 128, 0, none, 0, none, true, true, false, 1/2, 2, false, true, false⟩

/-- Run of `quantize` on `wC7` where column 2 is detected as a
structured outlier column. -/
def runC7 : AccState × Except QErr QuantizationResult :=
  SPQRUtil.quantize ⟨some hC7, 5⟩ cfgC7 2 3 wC7 hinvC7 rC7

/-- 2×2 curvature matrix `diag(0, 2)`: feature 0 is dead. -/
def hC8 : Mat := fun i j => if i = 1 ∧ j = 1 then 2 else 0

/-- Loop invariant: columns marked as structured outliers never carry
an unstructured-outlier mark. -/
def MaskColInv (ctx : LoopCtx) (st : LoopState) : Prop :=
  ∀ r c, ctx.colsMask c = true → st.M r c = false

/-- Loop invariant for structured outlier columns: the error column is
zero, the weight column differs from its starting value exactly by the
accumulated propagation addends, and the column was never passed to
the scalar quantizer. -/
def OutColInv (ctx : LoopCtx) (W0 : Mat) (st : LoopState) : Prop :=
  ∀ r c, ctx.colsMask c = true →
    st.E r c = 0 ∧ st.W r c = W0 r c + st.corr r c ∧ c ∉ st.rounded

/-! ## Theorems -/

/-- Any invariant preserved by the step function survives a left fold. -/
theorem foldl_inv {α σ : Type} (P : σ → Prop) (f : σ → α → σ) :
    ∀ (l : List α) (s : σ), P s → (∀ s a, P s → P (f s a)) → P (l.foldl f s) := by
  intro l
  induction l with
  | nil => intro s hs _; exact hs
  | cons a t ih => intro s hs hstep; exact ih (f s a) (hstep s a hs) hstep

/-- The leave-one-out index entry in closed form. -/
theorem looIndex_eq (i j : ℕ) : looIndex i j = if j < i then j else j + 1 := by
  unfold looIndex
  split_ifs <;> omega

/-- Filtering `i` out of `range g` equals the monotone reindexing map. -/
theorem range_filter_ne (i : ℕ) :
    ∀ (g : ℕ), i < g →
      (List.range g).filter (fun x => decide (x ≠ i)) =
        (List.range (g - 1)).map (fun j => if j < i then j else j + 1) := by
  intro g
  induction g with
  | zero => intro h; omega
  | succ n ih =>
      intro hi
      rw [List.range_succ, List.filter_append]
      rcases Nat.lt_or_ge i n with hlt | hge
      · have hn1 : 1 ≤ n := by omega
        have : (List.range (n + 1 - 1)) = List.range (n - 1) ++ [n - 1] := by
          have : n + 1 - 1 = (n - 1) + 1 := by omega
          rw [this, List.range_succ]
        rw [this, List.map_append, ← ih hlt]
        have hne : (decide (n ≠ i)) = true := by simp; omega
        have hfn : (if n - 1 < i then n - 1 else n - 1 + 1) = n := by
          split <;> omega
        simp only [List.filter_singleton, hne, if_true, List.map_singleton, hfn]
        rfl
      · have hin : i = n := by omega
        subst hin
        have h1 : (List.range i).filter (fun x => decide (x ≠ i)) = List.range i := by
          apply List.filter_eq_self.mpr
          intro a ha
          simp only [List.mem_range] at ha
          simp
          omega
        have h2 : (List.range (i + 1 - 1)).map (fun j => if j < i then j else j + 1) =
            List.range i := by
          have he : i + 1 - 1 = i := by omega
          rw [he]
          have : ∀ j ∈ List.range i, (if j < i then j else j + 1) = j := by
            intro j hj
            simp only [List.mem_range] at hj
            simp [hj]
          rw [List.map_congr_left this]
          simp
        rw [h1, h2]
        simp

/-- C10 (confirmed): for group width `g ≥ 2` and held-out position
`i < g`, row `i` of the leave-one-out index matrix built by
`get_leave_one_out_error` is exactly `0..g-1` with `i` omitted, in
ascending order, and hence the reduced group `groupwise_loo_data[:, i]`
consists of all group columns except column `i`, for every output row
simultaneously. -/
theorem loo_row_enumerates_group_without_held_out (g i : ℕ)
    (hg : 2 ≤ g) (hi : i < g) :
    looRow g i = (List.range g).filter (fun x => decide (x ≠ i)) ∧
    ∀ (W : Mat) (r : ℕ),
      (List.range (g - 1)).map (fun j => groupwiseLooData W r i j) =
        ((List.range g).filter (fun x => decide (x ≠ i))).map (W r) := by
  have hrow : looRow g i = (List.range g).filter (fun x => decide (x ≠ i)) := by
    unfold looRow
    rw [range_filter_ne i g hi]
    exact List.map_congr_left (fun j _ => looIndex_eq i j)
  refine ⟨hrow, fun W r => ?_⟩
  have : (List.range (g - 1)).map (fun j => groupwiseLooData W r i j) =
      ((List.range (g - 1)).map (looIndex i)).map (W r) := by
    rw [List.map_map]
    rfl
  rw [this]
  unfold looRow at hrow
  rw [hrow]

/-- Witness for the leave-one-out enumeration at `g = 3`, `i = 1`. -/
theorem loo_row_enumerates_group_without_held_out_witness :
    (2 ≤ 3 ∧ 1 < 3) ∧
    (looRow 3 1 = (List.range 3).filter (fun x => decide (x ≠ 1)) ∧
     ∀ (W : Mat) (r : ℕ),
       (List.range (3 - 1)).map (fun j => groupwiseLooData W r 1 j) =
         ((List.range 3).filter (fun x => decide (x ≠ 1))).map (W r)) :=
  ⟨⟨by omega, by omega⟩,
   loo_row_enumerates_group_without_held_out 3 1 (by omega) (by omega)⟩

set_option maxRecDepth 10000 in
/-- C1 (code bug, evaluated): with `in_dim = 4`, `keep_last_columns = 2`
and `blocksize = 3`, the only block is `range(0, 2, 3) = [0]` but its
end is `min(0 + 3, 4) = 3`, which overruns `in_dim - keep_last_columns
= 2`; tail column 2 is passed to the scalar quantizer and rounded
(`weight[0][2]` becomes `7/3 ≠ 2` with a nonzero error entry, under
`H = I` so no propagated correction reaches it), contradicting the
claim and the function's own docstring.  The factorization arguments
satisfy the Cholesky contract for the preprocessed `H`. -/
theorem keep_last_tail_column_rounded :
    CholContract 4 (preprocessH 4 idMat 0).H idMat idMat ∧
    cfgC1.keep_last_columns = 2 ∧ 4 - 2 ≤ 2 ∧
    2 ∈ (getRes runC1).rounded_columns ∧
    wC1 0 2 = 2 ∧ (getRes runC1).weight 0 2 = 7/3 ∧
    (getRes runC1).quantization_errors 0 2 = -1/3 ∧
    ¬((7 : ℚ)/3 = 2) := by
  with_unfolding_all decide

set_option maxRecDepth 10000 in
/-- C2 (code bug, evaluated): same weight and curvature, once with
`blocksize = 1` and once with `blocksize = 2 = in_dim`, both with
`keep_last_columns = 1`: with blocksize 2 the single block's end
`min(0 + 2, 2) = 2` overruns `in_dim - keep_last_columns = 1` and tail
column 1 is quantized (`weight[0][1] = 5/3`, error `-2/3`), while with
blocksize 1 column 1 is untouched (`weight[0][1] = 1`, error `0`) —
the results differ, contradicting the claim and the docstring note
that blocksize does not affect the result. -/
theorem blocksize_changes_result :
    CholContract 2 (preprocessH 2 idMat 0).H idMat idMat ∧
    (getRes runC2a).weight 0 1 = 1 ∧
    (getRes runC2b).weight 0 1 = 5/3 ∧
    (getRes runC2a).quantization_errors 0 1 = 0 ∧
    (getRes runC2b).quantization_errors 0 1 = -2/3 ∧
    ¬((1 : ℚ) = 5/3) := by
  with_unfolding_all decide

/-- C5 (counterexample): the same two calibration vectors `[1], [1]`
split as two 2-D batches give final `H₀₀ = 2`, while as one single 2-D
batch they give `H₀₀ = 4`: the final accumulated matrix depends on the
split, because a 2-D batch increments the sample counter by 1
regardless of how many feature vectors it contains. -/
theorem accum_H_depends_on_split :
    (splitA.map Inp.rows).flatten = (splitB.map Inp.rows).flatten ∧
    (runAccum splitA).1 0 0 = 2 ∧ (runAccum splitB).1 0 0 = 4 ∧
    ¬((2 : ℚ) = 4) := by
  with_unfolding_all decide

/-- A batch with zero batch-count increment carries no feature vectors. -/
theorem gram_of_tmp_zero (b : Inp) (hb : b.tmp = 0) :
    ∀ i j, gramRows b.rows i j = 0 := by
  intro i j
  cases b with
  | twoD rows => simp [Inp.tmp] at hb
  | threeD mats =>
      simp only [Inp.tmp] at hb
      rw [List.length_eq_zero] at hb
      subst hb
      simp [Inp.rows, gramRows]

/-- Closed form of the incremental accumulation: starting from a state
equal to `2·G/n` (with `G = 0` when `n = 0`), folding `accumStep` over
a batch list yields `2·(G + ΣGram)/ (n + Σtmp)` and the counter
`n + Σtmp`. -/
theorem runAccum_spec :
    ∀ (l : List Inp) (M : Mat) (n : ℕ) (G : Mat),
      (∀ i j, M i j = 2 * G i j / (n : ℚ)) →
      (n = 0 → ∀ i j, G i j = 0) →
      (∀ i j, (l.foldl accumStep (M, n)).1 i j =
        2 * (G i j + gramAll l i j) / ((n + totalTmp l : ℕ) : ℚ)) ∧
      (l.foldl accumStep (M, n)).2 = n + totalTmp l := by
  intro l
  induction l with
  | nil =>
      intro M n G hM _
      constructor
      · intro i j
        simp [gramAll, totalTmp, hM i j]
      · simp [totalTmp]
  | cons b t ih =>
      intro M n G hM hG0
      have hstep1 : ∀ i j, (accumStep (M, n) b).1 i j =
          2 * (G i j + gramRows b.rows i j) / ((n + b.tmp : ℕ) : ℚ) := by
        intro i j
        simp only [accumStep]
        rcases Nat.eq_zero_or_pos (n + b.tmp) with hz | hpos
        · have hn : n = 0 := by omega
          have ht : b.tmp = 0 := by omega
          rw [hz, hM i j, hG0 hn i j, gram_of_tmp_zero b ht i j, hn]
          norm_num
        · have hcast : ((n + b.tmp : ℕ) : ℚ) ≠ 0 := by
            exact_mod_cast Nat.pos_iff_ne_zero.mp hpos
          rcases Nat.eq_zero_or_pos n with hn | hn
          · rw [hM i j, hG0 hn i j, hn]
            push_cast
            field_simp
          · have hncast : ((n : ℕ) : ℚ) ≠ 0 := by
              exact_mod_cast Nat.pos_iff_ne_zero.mp hn
            rw [hM i j]
            push_cast
            field_simp
            ring
      have hstep2 : (accumStep (M, n) b).2 = n + b.tmp := rfl
      have hGz : (n + b.tmp = 0) → ∀ i j,
          G i j + gramRows b.rows i j = 0 := by
        intro hz i j
        have hn : n = 0 := by omega
        have ht : b.tmp = 0 := by omega
        rw [hG0 hn i j, gram_of_tmp_zero b ht i j]
        norm_num
      have hM1 : ∀ i j, (accumStep (M, n) b).1 i j =
          2 * ((fun i j => G i j + gramRows b.rows i j) i j) /
            (((accumStep (M, n) b).2 : ℕ) : ℚ) := by
        intro i j
        rw [hstep2]
        exact hstep1 i j
      have hG1 : (accumStep (M, n) b).2 = 0 →
          ∀ i j, (fun i j => G i j + gramRows b.rows i j) i j = 0 := by
        rw [hstep2]
        intro hz i j
        exact hGz hz i j
      have hfold : (b :: t).foldl accumStep (M, n) =
          t.foldl accumStep (accumStep (M, n) b) := rfl
      rw [hfold]
      obtain ⟨h1, h2⟩ := ih (accumStep (M, n) b).1 (accumStep (M, n) b).2
        (fun i j => G i j + gramRows b.rows i j) hM1 hG1
      constructor
      · intro i j
        rw [h1 i j, hstep2]
        have harr : G i j + gramRows b.rows i j + gramAll t i j =
            G i j + gramAll (b :: t) i j := by
          simp only [gramAll, List.map_cons, List.sum_cons]
          ring
        have hnat : n + b.tmp + totalTmp t = n + totalTmp (b :: t) := by
          simp only [totalTmp, List.map_cons, List.sum_cons]
          omega
        rw [harr, hnat]
      · rw [h2, hstep2]
        simp only [totalTmp, List.map_cons, List.sum_cons]
        omega

/-- C5 (amended): the final accumulated matrix equals `2/n` times the
Gram matrix of all feature vectors, where `n` is the accumulated batch
counter (1 per 2-D batch, the leading-axis size per 3-D batch); it is
invariant under reordering the batches — but not under re-splitting
them, as the counterexample shows. -/
theorem accum_H_characterization (l l2 : List Inp) (hperm : l.Perm l2)
    (i j : ℕ) :
    (runAccum l).1 i j = 2 * gramAll l i j / ((totalTmp l : ℕ) : ℚ) ∧
    (runAccum l).2 = totalTmp l ∧
    (runAccum l2).1 i j = (runAccum l).1 i j ∧
    (runAccum l2).2 = (runAccum l).2 := by
  have hbase : ∀ (m : List Inp) (i j : ℕ),
      (runAccum m).1 i j = 2 * gramAll m i j / ((totalTmp m : ℕ) : ℚ) ∧
      (runAccum m).2 = totalTmp m := by
    intro m i j
    have h := runAccum_spec m zeroMat 0 zeroMat
      (by intro i j; simp [zeroMat]) (by intro _ i j; simp [zeroMat])
    refine ⟨?_, ?_⟩
    · have := h.1 i j
      simpa [runAccum, zeroMat] using this
    · have := h.2
      simpa [runAccum] using this
  have htmp : totalTmp l = totalTmp l2 := by
    exact (hperm.map Inp.tmp).sum_eq
  have hgram : gramAll l i j = gramAll l2 i j := by
    exact (hperm.map (fun b => gramRows b.rows i j)).sum_eq
  obtain ⟨ha, hb⟩ := hbase l i j
  obtain ⟨hc, hd⟩ := hbase l2 i j
  refine ⟨ha, hb, ?_, ?_⟩
  · rw [hc, ha, htmp, hgram]
  · rw [hd, hb, htmp]

/-- Witness for the accumulation characterization on a transposed
two-batch list. -/
theorem accum_H_characterization_witness :
    ([Inp.twoD [[1]], Inp.twoD [[2]]].Perm [Inp.twoD [[2]], Inp.twoD [[1]]]) ∧
    ((runAccum [Inp.twoD [[1]], Inp.twoD [[2]]]).1 0 0 =
        2 * gramAll [Inp.twoD [[1]], Inp.twoD [[2]]] 0 0 /
          ((totalTmp [Inp.twoD [[1]], Inp.twoD [[2]]] : ℕ) : ℚ) ∧
      (runAccum [Inp.twoD [[1]], Inp.twoD [[2]]]).2 =
        totalTmp [Inp.twoD [[1]], Inp.twoD [[2]]] ∧
      (runAccum [Inp.twoD [[2]], Inp.twoD [[1]]]).1 0 0 =
        (runAccum [Inp.twoD [[1]], Inp.twoD [[2]]]).1 0 0 ∧
      (runAccum [Inp.twoD [[2]], Inp.twoD [[1]]]).2 =
        (runAccum [Inp.twoD [[1]], Inp.twoD [[2]]]).2) :=
  ⟨List.Perm.swap _ _ _,
   accum_H_characterization _ _ (List.Perm.swap _ _ _) 0 0⟩

/-- C6 (counterexample): two successive 2-D `add_batch` calls carrying
2 and 3 feature vectors leave the sample counter at 2, not `2 + 3`:
each 2-D batch is unsqueezed to leading size 1 before `tmp = shape[0]`
is read. -/
theorem nsamples_counts_batches_not_vectors :
    accN ((SPQRUtil.add_batch freshAcc (Inp.twoD [[1], [2]])).bind
        (fun s => SPQRUtil.add_batch s (Inp.twoD [[3], [4], [5]]))) = some 2 ∧
    (Inp.twoD [[1], [2]]).rows.length = 2 ∧
    (Inp.twoD [[3], [4], [5]]).rows.length = 3 ∧
    ¬(2 = 2 + 3) := by
  with_unfolding_all decide

/-- C6 (amended): after two successive `add_batch` calls the sample
counter equals `tmp b1 + tmp b2`, where `tmp` is 1 for a 2-D batch
(regardless of its number of feature vectors) and the leading-axis
size for a 3-D batch. -/
theorem nsamples_adds_batch_tmp (b1 b2 : Inp) :
    accN ((SPQRUtil.add_batch freshAcc b1).bind
        (fun s => SPQRUtil.add_batch s b2)) = some (b1.tmp + b2.tmp) ∧
    (∀ rows, (Inp.twoD rows).tmp = 1) ∧
    (∀ mats, (Inp.threeD mats).tmp = mats.length) := by
  refine ⟨?_, fun _ => rfl, fun _ => rfl⟩
  simp [SPQRUtil.add_batch, freshAcc, accumStep, accN, Except.bind]

/-- C8 (counterexample): on `H = diag(0, 2)` with `percdamp = 1/2`,
the code computes the damping mean over the original diagonal
(`(0 + 2)/2 = 1`), adds the increment to every diagonal entry, and
only then resets the dead entry to exactly 1: the result is
`diag(1, 5/2)`.  The claim's order (dead entries set to 1 first, mean
`(1 + 2)/2 = 3/2`, dead entries keeping the increment) would give
`diag(1 + 3/4, 2 + 3/4)`; both predicted entries differ. -/
theorem damping_before_dead_reset :
    hC8 0 0 = 0 ∧ (preprocessH 2 hC8 (1/2)).dead 0 = true ∧
    (preprocessH 2 hC8 (1/2)).H 0 0 = 1 ∧
    (preprocessH 2 hC8 (1/2)).H 1 1 = 5/2 ∧
    ¬((5 : ℚ)/2 = 2 + (1/2) * ((1 + 2)/2)) ∧
    ¬((1 : ℚ) = 1 + (1/2) * ((1 + 2)/2)) := by
  with_unfolding_all decide

/-- C8 (amended): `quantize` marks dead features from the original
diagonal, then (for `percdamp > 0`) adds
`percdamp · mean(|diag H|)` — the mean taken over the original
diagonal, in which dead entries are 0 — to every diagonal entry, and
only afterwards resets dead diagonal entries to exactly 1, so dead
features do not retain the damping increment; off-diagonal entries are
unchanged; for `percdamp ≤ 0` damping is skipped. -/
theorem preprocessH_characterization (n : ℕ) (H : Mat) (p : ℚ) (i j : ℕ)
    (hi : i < n) (hj : j < n) :
    (preprocessH n H p).dead i = decide (H i i = 0) ∧
    (preprocessH n H p).H i j =
      (if i = j then
        (if H i i = 0 then 1
         else if 0 < p then H i i + p * (sumTo n (fun k => |H k k|) / (n : ℚ))
         else H i i)
       else H i j) := by
  refine ⟨rfl, ?_⟩
  unfold preprocessH
  by_cases hij : i = j
  · subst hij
    by_cases hdead : H i i = 0
    · simp [hdead]
    · by_cases hp : 0 < p
      · simp [hdead, hp, hi]
      · simp [hdead, hp]
  · by_cases hp : 0 < p
    · simp [hij, hp]
    · simp [hij, hp]

/-- Witness for the preprocessing characterization at `H = diag(0,2)`,
`p = 1/2`, entry `(1,1)`. -/
theorem preprocessH_characterization_witness :
    (1 < 2 ∧ 1 < 2) ∧
    ((preprocessH 2 hC8 (1/2)).dead 1 = decide (hC8 1 1 = 0) ∧
     (preprocessH 2 hC8 (1/2)).H 1 1 =
       (if (1 : ℕ) = 1 then
         (if hC8 1 1 = 0 then 1
          else if (0 : ℚ) < 1/2 then
            hC8 1 1 + (1/2) * (sumTo 2 (fun k => |hC8 k k|) / (2 : ℚ))
          else hC8 1 1)
        else hC8 1 1)) :=
  ⟨⟨by omega, by omega⟩,
   preprocessH_characterization 2 hC8 (1/2) 1 1 (by omega) (by omega)⟩

/-- C3 (counterexample): a run with row outliers enabled, a finite
unstructured threshold and `keep_H = false` does fail with the
mutual-exclusion error — but only after the whole quantization loop,
and the accumulator's Hessian has already been consumed when the error
is raised, so state *is* changed on error, contrary to the claim's
"fatal at call entry … no state is changed". -/
theorem unsupported_config_error_after_consuming_H :
    cfgC3.outlier_rows_enable = true ∧
    cfgC3.outlier_relative_threshold = some 100 ∧
    cfgC3.keepH = false ∧
    errOf runC3 = some .unsupportedConfiguration ∧
    runC3.1.H.isNone = true := by
  with_unfolding_all decide

/-- C3 (amended): with row outliers enabled and a finite relative
threshold, `quantize` always fails with the mutual-exclusion error
(provided the leave-one-out `assert perchannel` is not hit first) —
but the error is raised only after the main loop, and when
`keep_H = false` the accumulator's Hessian has already been consumed
by the failing call. -/
theorem quantize_rows_with_finite_threshold_fails (acc : AccState)
    (cfg : QConfig) (outDim inDim : ℕ) (W Hinv R M : Mat) (t : ℚ)
    (hsome : acc.H = some M)
    (hrows : cfg.outlier_rows_enable = true)
    (hfin : cfg.outlier_relative_threshold = some t)
    (hpath : cfg.perchannel = true ∨ cfg.simplified_outliers = true) :
    (SPQRUtil.quantize acc cfg outDim inDim W Hinv R).2 =
      .error .unsupportedConfiguration ∧
    (cfg.keepH = false →
      (SPQRUtil.quantize acc cfg outDim inDim W Hinv R).1.H = none) := by
  obtain ⟨Hopt, nn⟩ := acc
  cases Hopt with
  | none => simp at hsome
  | some M0 =>
      rcases hpath with h | h
      · constructor
        · simp [SPQRUtil.quantize, SPQRUtil.quantizeBody, hrows, hfin, h]
        · intro hkeep
          simp [SPQRUtil.quantize, hkeep]
      · constructor
        · simp [SPQRUtil.quantize, SPQRUtil.quantizeBody, hrows, hfin, h]
        · intro hkeep
          simp [SPQRUtil.quantize, hkeep]

/-- Witness for the amended C3 theorem at the concrete `runC3` input. -/
theorem quantize_rows_with_finite_threshold_fails_witness :
    ((⟨some idMat, 3⟩ : AccState).H = some idMat ∧
     cfgC3.outlier_rows_enable = true ∧
     cfgC3.outlier_relative_threshold = some 100 ∧
     cfgC3.simplified_outliers = true) ∧
    ((SPQRUtil.quantize ⟨some idMat, 3⟩ cfgC3 2 2 wC2 idMat idMat).2 =
       .error .unsupportedConfiguration ∧
     (cfgC3.keepH = false →
       (SPQRUtil.quantize ⟨some idMat, 3⟩ cfgC3 2 2 wC2 idMat idMat).1.H = none)) :=
  ⟨⟨rfl, rfl, rfl, rfl⟩,
   quantize_rows_with_finite_threshold_fails ⟨some idMat, 3⟩ cfgC3 2 2 wC2
     idMat idMat idMat 100 rfl rfl rfl (Or.inr rfl)⟩

/-- C4 (counterexample): a quantization call with `keep_H = true` (the
default) completes successfully and a subsequent `add_batch` call on
the same accumulator also succeeds: quantization does not invalidate
the accumulator for every `keep_H` setting, contrary to the claim. -/
theorem add_batch_after_keepH_quantize_succeeds :
    cfgC4.keepH = true ∧
    errOf runC4 = none ∧
    runC4.1.H.isNone = false ∧
    okB (SPQRUtil.add_batch runC4.1 (Inp.twoD [[1, 0], [0, 1]])) = true := by
  with_unfolding_all decide

/-- C4 (amended): only a quantization call with `keep_H = false`
consumes the accumulator's Hessian; after such a call every subsequent
`add_batch` fails with `AccumulatorConsumed`. -/
theorem add_batch_fails_after_consuming_quantize (acc : AccState)
    (cfg : QConfig) (outDim inDim : ℕ) (W Hinv R M : Mat) (inp : Inp)
    (hsome : acc.H = some M) (hkeep : cfg.keepH = false) :
    (SPQRUtil.quantize acc cfg outDim inDim W Hinv R).1.H = none ∧
    SPQRUtil.add_batch (SPQRUtil.quantize acc cfg outDim inDim W Hinv R).1 inp
      = .error .accumulatorConsumed := by
  have h1 : (SPQRUtil.quantize acc cfg outDim inDim W Hinv R).1.H = none := by
    obtain ⟨Hopt, nn⟩ := acc
    cases Hopt with
    | none => simp at hsome
    | some M0 =>
        simp [SPQRUtil.quantize, hkeep]
  refine ⟨h1, ?_⟩
  simp only [SPQRUtil.add_batch, h1]

/-- Witness for the amended C4 theorem: quantize with `keep_H = false`
on a fresh-style accumulator, then try to add a batch. -/
theorem add_batch_fails_after_consuming_quantize_witness :
    ((⟨some idMat, 3⟩ : AccState).H = some idMat ∧ cfgC3.keepH = false) ∧
    ((SPQRUtil.quantize ⟨some idMat, 3⟩ cfgC3 2 2 wC2 idMat idMat).1.H = none ∧
     SPQRUtil.add_batch (SPQRUtil.quantize ⟨some idMat, 3⟩ cfgC3 2 2 wC2 idMat
       idMat).1 (Inp.twoD [[1, 0], [0, 1]]) = .error .accumulatorConsumed) :=
  ⟨⟨rfl, rfl⟩,
   add_batch_fails_after_consuming_quantize ⟨some idMat, 3⟩ cfgC3 2 2 wC2
     idMat idMat idMat (Inp.twoD [[1, 0], [0, 1]]) rfl rfl⟩

/-- The group-boundary refit step touches only the quantizer
parameters and the group counter. -/
theorem stepRefit_fields (ctx : LoopCtx) (st : LoopState) (ci : ℕ) :
    (if ci % ctx.groupsize = 0 then refitQuantizer ctx st ci else st).W = st.W ∧
    (if ci % ctx.groupsize = 0 then refitQuantizer ctx st ci else st).E = st.E ∧
    (if ci % ctx.groupsize = 0 then refitQuantizer ctx st ci else st).M = st.M ∧
    (if ci % ctx.groupsize = 0 then refitQuantizer ctx st ci else st).rounded
      = st.rounded ∧
    (if ci % ctx.groupsize = 0 then refitQuantizer ctx st ci else st).corr
      = st.corr := by
  split <;> exact ⟨rfl, rfl, rfl, rfl, rfl⟩

/-- One column step preserves `MaskColInv`: the unstructured mask is
written only at the processed column and only when that column is not
a structured outlier. -/
theorem processColumn_MaskColInv (ctx : LoopCtx) (be ci : ℕ) (st : LoopState)
    (h : MaskColInv ctx st) : MaskColInv ctx (processColumn ctx be st ci) := by
  obtain ⟨hW, hE, hM, hRd, hC⟩ := stepRefit_fields ctx st ci
  intro r c hc
  simp only [processColumn, finishColumn, hM]
  by_cases hcc : c = ci
  · subst hcc
    rw [if_neg]
    · exact h r c hc
    · rintro ⟨⟨_, hf⟩, _⟩
      rw [hc] at hf
      cases hf
  · rw [if_neg]
    · exact h r c hc
    · rintro ⟨_, hcc2⟩
      exact hcc hcc2

/-- One block step preserves `MaskColInv`. -/
theorem processBlock_MaskColInv (ctx : LoopCtx) (bs : ℕ) (st : LoopState)
    (h : MaskColInv ctx st) : MaskColInv ctx (processBlock ctx st bs) := by
  intro r c hc
  simp only [processBlock]
  exact foldl_inv (MaskColInv ctx) _ _ st h
    (fun s a hs => processColumn_MaskColInv ctx _ a s hs) r c hc

/-- The whole loop satisfies `MaskColInv`. -/
theorem runBlocks_MaskColInv (ctx : LoopCtx) (W0 : Mat) :
    MaskColInv ctx (runBlocks ctx W0) := by
  unfold runBlocks
  exact foldl_inv (MaskColInv ctx) _ _ _ (fun _ _ _ => rfl)
    (fun s a hs => processBlock_MaskColInv ctx a s hs)

/-- One column step preserves `OutColInv`: a structured outlier column
is never quantized (its value is copied, its error entry set to
`(w - w)/R = 0`), and propagation addends land identically in the
weight and in the ghost correction matrix. -/
theorem processColumn_OutColInv (ctx : LoopCtx) (be ci : ℕ) (W0 : Mat)
    (st : LoopState) (h : OutColInv ctx W0 st) :
    OutColInv ctx W0 (processColumn ctx be st ci) := by
  obtain ⟨hW, hE, hM, hRd, hC⟩ := stepRefit_fields ctx st ci
  intro r c hc
  obtain ⟨ihE, ihW, ihR⟩ := h r c hc
  by_cases hcc : c = ci
  · subst hcc
    refine ⟨?_, ?_, ?_⟩
    · simp only [processColumn, finishColumn, hW, hE, hM, hRd, hC]
      simp [hc]
    · simp only [processColumn, finishColumn, hW, hE, hM, hRd, hC]
      simp [hc, ihW]
    · simp only [processColumn, finishColumn, hW, hE, hM, hRd, hC]
      simp [hc, ihR]
  · refine ⟨?_, ?_, ?_⟩
    · simp only [processColumn, finishColumn, hW, hE, hM, hRd, hC]
      simp [hcc, ihE]
    · simp only [processColumn, finishColumn, hW, hE, hM, hRd, hC]
      by_cases hin : ci < c ∧ c < be
      · rw [if_pos hin, if_pos hin, if_neg hcc, ihW]
        ring
      · rw [if_neg hin, if_neg hin, if_neg hcc, ihW]
    · simp only [processColumn, finishColumn, hW, hE, hM, hRd, hC]
      by_cases hmci : ctx.colsMask ci = true
      · simp [hmci, ihR]
      · simp only [Bool.not_eq_true] at hmci
        simp only [hmci]
        simp only [Bool.false_eq_true, if_false, List.mem_cons]
        rintro (hx | hx)
        · exact hcc hx
        · exact ihR hx

/-- One block step preserves `OutColInv`: the rank-k block update adds
the same quantity to the weight and to the ghost correction matrix. -/
theorem processBlock_OutColInv (ctx : LoopCtx) (bs : ℕ) (W0 : Mat)
    (st : LoopState) (h : OutColInv ctx W0 st) :
    OutColInv ctx W0 (processBlock ctx st bs) := by
  have h1 := foldl_inv (OutColInv ctx W0)
    (fun s ci => processColumn ctx (min (bs + ctx.blocksize) ctx.inDim) s ci)
    (List.range' bs (min (bs + ctx.blocksize) ctx.inDim - bs)) st h
    (fun s a hs => processColumn_OutColInv ctx _ a W0 s hs)
  intro r c hc
  obtain ⟨iE, iW, iR⟩ := h1 r c hc
  refine ⟨?_, ?_, ?_⟩
  · simp only [processBlock]
    exact iE
  · simp only [processBlock]
    by_cases hbe : min (bs + ctx.blocksize) ctx.inDim ≤ c
    · rw [if_pos hbe, if_pos hbe, iW]
      ring
    · rw [if_neg hbe, if_neg hbe, iW]
  · simp only [processBlock]
    exact iR

/-- The whole loop satisfies `OutColInv`. -/
theorem runBlocks_OutColInv (ctx : LoopCtx) (W0 : Mat) :
    OutColInv ctx W0 (runBlocks ctx W0) := by
  unfold runBlocks
  refine foldl_inv (OutColInv ctx W0) _ _ _ ?_
    (fun s a hs => processBlock_OutColInv ctx a W0 s hs)
  intro r c _
  refine ⟨rfl, ?_, ?_⟩
  · simp [initState, zeroMat]
  · simp [initState]

/-- C9 (confirmed): in every `QuantizationResult` returned by
`quantize`, the unstructured outlier mask is `false` at every element
of a column listed in `outlier_column_indices` (the mask is written
only at non-outlier columns) and at every element of a row listed in
`outlier_row_indices` (row outliers clear any unstructured marks on
their rows). -/
theorem outlier_structures_mutually_exclusive (acc : AccState) (cfg : QConfig)
    (outDim inDim : ℕ) (W Hinv R : Mat) (res : QuantizationResult)
    (hok : (SPQRUtil.quantize acc cfg outDim inDim W Hinv R).2 = .ok res) :
    (∀ c, c ∈ res.outlier_column_indices → ∀ r,
      res.unstructured_outlier_mask r c = false) ∧
    (∀ r, r ∈ res.outlier_row_indices → ∀ c,
      res.unstructured_outlier_mask r c = false) := by
  obtain ⟨Hopt, nn⟩ := acc
  cases Hopt with
  | none => simp [SPQRUtil.quantize] at hok
  | some H0 =>
      have hbody : SPQRUtil.quantizeBody cfg outDim inDim W Hinv R H0 = .ok res := by
        simpa [SPQRUtil.quantize] using hok
      simp only [SPQRUtil.quantizeBody] at hbody
      split at hbody
      · exact absurd hbody (by simp)
      · split at hbody
        · exact absurd hbody (by simp)
        · rw [Except.ok.injEq] at hbody
          subst hbody
          have hgen : ∀ (p : Prop) (inst : Decidable p) (x : Bool), x = false →
              (@ite _ p inst false x) = false := by
            intro p inst x hx
            split
            · rfl
            · exact hx
          constructor
          · intro c hcmem r
            exact hgen _ _ _ (runBlocks_MaskColInv _ _ r c (decide_eq_true hcmem))
          · intro r hrmem c
            exact if_pos hrmem

/-- Witness for C9 on the concrete `runC7` instance, whose result has
outlier column 2. -/
theorem outlier_structures_mutually_exclusive_witness :
    (runC7.2 = .ok (getRes runC7) ∧ 2 ∈ (getRes runC7).outlier_column_indices) ∧
    ((∀ c, c ∈ (getRes runC7).outlier_column_indices → ∀ r,
       (getRes runC7).unstructured_outlier_mask r c = false) ∧
     (∀ r, r ∈ (getRes runC7).outlier_row_indices → ∀ c,
       (getRes runC7).unstructured_outlier_mask r c = false)) :=
  ⟨⟨by with_unfolding_all rfl, by with_unfolding_all decide⟩,
   outlier_structures_mutually_exclusive ⟨some hC7, 5⟩ cfgC7 2 3 wC7 hinvC7
     rC7 (getRes runC7) (by with_unfolding_all rfl)⟩

/-- C7 (counterexample): in a run where column 2 is a structured
outlier column, the returned weight in that column is `122/3`, not the
original `40`: outlier columns still receive the additive
error-propagation corrections from earlier columns (here
`-error₀ · R[0,2] = 2/3`), so the returned values are not exactly the
original ones.  (The error column is indeed zero.) -/
theorem outlier_column_receives_propagated_error :
    CholContract 3 (preprocessH 3 hC7 0).H hinvC7 rC7 ∧
    (getRes runC7).outlier_column_indices = [2] ∧
    wC7 0 2 = 40 ∧
    (getRes runC7).weight 0 2 = 122/3 ∧
    (getRes runC7).quantization_errors 0 2 = 0 ∧
    ¬((122 : ℚ)/3 = 40) := by
  with_unfolding_all decide

/-- C7 (amended): every column marked as a structured outlier is
excluded from quantizer rounding (it never reaches the scalar
quantizer and its error column is zero), and — when row outliers are
disabled — its returned values equal the values it started the loop
with (original weight after dead-feature zeroing) plus exactly the
accumulated error-propagation addends recorded in
`applied_corrections`. -/
theorem outlier_columns_never_quantized (acc : AccState) (cfg : QConfig)
    (outDim inDim : ℕ) (W Hinv R M : Mat) (res : QuantizationResult) (c : ℕ)
    (hsome : acc.H = some M)
    (hok : (SPQRUtil.quantize acc cfg outDim inDim W Hinv R).2 = .ok res)
    (hc : c ∈ res.outlier_column_indices) :
    (∀ r, res.quantization_errors r c = 0) ∧
    c ∉ res.rounded_columns ∧
    (cfg.outlier_rows_enable = false → ∀ r,
      res.weight r c =
        (if (preprocessH inDim M cfg.percdamp).dead c then 0 else W r c) +
          res.applied_corrections r c) := by
  obtain ⟨Hopt, nn⟩ := acc
  cases Hopt with
  | none => simp [SPQRUtil.quantize] at hok
  | some H0 =>
      have hM0 : H0 = M := by
        simpa using hsome
      subst hM0
      have hbody : SPQRUtil.quantizeBody cfg outDim inDim W Hinv R H0 = .ok res := by
        simpa [SPQRUtil.quantize] using hok
      simp only [SPQRUtil.quantizeBody] at hbody
      split at hbody
      · exact absurd hbody (by simp)
      · split at hbody
        · exact absurd hbody (by simp)
        · rw [Except.ok.injEq] at hbody
          subst hbody
          refine ⟨?_, ?_, ?_⟩
          · intro r
            exact (runBlocks_OutColInv _ _ r c (decide_eq_true hc)).1
          · exact (runBlocks_OutColInv _ _ 0 c (decide_eq_true hc)).2.2
          · intro hrows r
            simp only [hrows]
            simp only [Bool.false_eq_true, if_false, List.not_mem_nil]
            exact (runBlocks_OutColInv _ _ r c (decide_eq_true hc)).2.1

/-- Witness for the amended C7 theorem on the concrete `runC7`
instance. -/
theorem outlier_columns_never_quantized_witness :
    ((⟨some hC7, 5⟩ : AccState).H = some hC7 ∧
     runC7.2 = .ok (getRes runC7) ∧
     2 ∈ (getRes runC7).outlier_column_indices) ∧
    ((∀ r, (getRes runC7).quantization_errors r 2 = 0) ∧
     2 ∉ (getRes runC7).rounded_columns ∧
     (cfgC7.outlier_rows_enable = false → ∀ r,
       (getRes runC7).weight r 2 =
         (if (preprocessH 3 hC7 cfgC7.percdamp).dead 2 then 0 else wC7 r 2) +
           (getRes runC7).applied_corrections r 2)) :=
  ⟨⟨rfl, by with_unfolding_all rfl, by with_unfolding_all decide⟩,
   outlier_columns_never_quantized ⟨some hC7, 5⟩ cfgC7 2 3 wC7 hinvC7 rC7
     hC7 (getRes runC7) 2 rfl (by with_unfolding_all rfl)
     (by with_unfolding_all decide)⟩

end SpQR
